import Mathlib

/-
Verification of the weather repository core (src/weather/domain/models.py,
src/weather/domain/objects.py, src/weather/gui/gui_app.py) against its
natural-language specification.

The Python code is shallowly embedded: pure functions become Lean functions,
stateful archive operations become explicit state passing, Python exceptions
become Except / Option results carrying an explicit error value.
-/

namespace Weather

/-- Model of the Python exception values the embedded code can raise.
`weatherDataError` models `weather.errors.WeatherDataError` (an `Exception`
subclass whose `str` is its message; the class itself lives in
`weather/errors.py`, outside the provided sources, but every use site only
constructs it with a message string and catches it by type).
`valueError` models builtin `ValueError`; `indexError` models `IndexError`;
`otherError` stands for any other exception carrying a message. -/
inductive PyError where
  | weatherDataError (msg : String)
  | valueError (msg : String)
  | indexError (msg : String)
  | otherError (msg : String)
deriving DecidableEq, Repr

/-- Model of Python `str(exc)`: the message the exception was built with. -/
def pyStr : PyError → String
  | .weatherDataError m => m
  | .valueError m => m
  | .indexError m => m
  | .otherError m => m

/-! ## Dates (`datetime.date`)

A calendar date is a (year, month, day) triple; `datetime.date` accepts
exactly the triples with `1 ≤ year ≤ 9999`, `1 ≤ month ≤ 12` and
`1 ≤ day ≤ days_in_month(year, month)`, and raises `ValueError` otherwise.
Comparison of dates is lexicographic on (year, month, day). -/

structure Date where
  year : Nat
  month : Nat
  day : Nat
deriving DecidableEq, Repr

/-- Gregorian leap-year rule used by `datetime` / `calendar.isleap`. -/
def isLeapYear (y : Nat) : Prop :=
  y % 4 = 0 ∧ (y % 100 ≠ 0 ∨ y % 400 = 0)

instance (y : Nat) : Decidable (isLeapYear y) := by
  unfold isLeapYear; infer_instance

/-- Number of days in a month, as `calendar.monthrange(year, month)[1]`. -/
def daysInMonth (year month : Nat) : Nat :=
  if month = 2 then (if isLeapYear year then 29 else 28)
  else if month = 4 ∨ month = 6 ∨ month = 9 ∨ month = 11 then 30
  else 31

/-- Validity domain of the `datetime.date` constructor. -/
def isValidDate (d : Date) : Prop :=
  1 ≤ d.year ∧ d.year ≤ 9999 ∧ 1 ≤ d.month ∧ d.month ≤ 12 ∧
    1 ≤ d.day ∧ d.day ≤ daysInMonth d.year d.month

instance (d : Date) : Decidable (isValidDate d) := by
  unfold isValidDate; infer_instance

/-- Model of the `datetime.date(year, month, day)` constructor: yields the
date when the triple is valid and raises `ValueError` otherwise. -/
def mkDate (year month day : Nat) : Except PyError Date :=
  if isValidDate ⟨year, month, day⟩ then .ok ⟨year, month, day⟩
  else .error (.valueError "day is out of range for month")

/-- Lexicographic strict order on dates, as Python date comparison. -/
def dateLt (a b : Date) : Prop :=
  a.year < b.year ∨
    (a.year = b.year ∧ (a.month < b.month ∨ (a.month = b.month ∧ a.day < b.day)))

instance (a b : Date) : Decidable (dateLt a b) := by
  unfold dateLt; infer_instance

/-- Non-strict date comparison. -/
def dateLe (a b : Date) : Prop := dateLt a b ∨ a = b

instance (a b : Date) : Decidable (dateLe a b) := by
  unfold dateLe; infer_instance

/-! ## DateRange (src/weather/domain/objects.py, class DateRange)

`DateRange` is a named tuple `(low, high)`; `__new__` raises `ValueError`
when `high < low`, and an omitted `high` defaults to `low`. -/

structure DateRange where
  low : Date
  high : Date
deriving DecidableEq, Repr

/-- Model of `DateRange.__new__` (objects.py lines 66-78): an omitted high
defaults to low, and a high below low raises `ValueError`.  A `None` low is
unrepresentable in the typed embedding, so that branch does not appear. -/
def DateRange.make (low : Date) (high : Option Date) : Except PyError DateRange :=
  match high with
  | none => .ok ⟨low, low⟩
  | some h =>
      if dateLt h low then
        .error (.valueError "DateRange: high date cannot be less than low date.")
      else .ok ⟨low, h⟩

/-- The DateRange invariant established by the constructor. -/
def DateRange.valid (r : DateRange) : Prop :=
  isValidDate r.low ∧ isValidDate r.high ∧ dateLe r.low r.high

instance (r : DateRange) : Decidable (r.valid) := by
  unfold DateRange.valid; infer_instance

/-- Model of `DateRange.spans_years` (objects.py lines 105-106). -/
def DateRange.spansYears (r : DateRange) : Prop := r.low.year < r.high.year

instance (r : DateRange) : Decidable (r.spansYears) := by
  unfold DateRange.spansYears; infer_instance

/-- Python `datetime.MINYEAR`, the epoch year `E` of the specification. -/
def MINYEAR : Nat := 1

/-- Model of the inner `neutral_day` helper of `as_neutral_date_range`
(objects.py lines 109-115): day 29 in February becomes 28, everything else
is unchanged. -/
def neutralDay (d : Date) : Nat :=
  if d.month ≠ 2 then d.day
  else if d.day = 29 then 28 else d.day

/-- Model of `DateRange.as_neutral_date_range` (objects.py lines 108-119):
rebuild low with year `MINYEAR` and high with year `MINYEAR + 1` when the
range spans a year boundary (`MINYEAR` otherwise), coercing Feb 29 to 28;
both `date(...)` calls and the final `DateRange(...)` call can raise. -/
def DateRange.asNeutralDateRange (r : DateRange) : Except PyError DateRange := do
  let low ← mkDate MINYEAR r.low.month (neutralDay r.low)
  let high ← mkDate (if r.spansYears then MINYEAR + 1 else MINYEAR)
      r.high.month (neutralDay r.high)
  DateRange.make low (some high)

/-- Value that `as_neutral_date_range` computes on a valid range; used only
to phrase the lemmas below, the claims themselves are about
`DateRange.asNeutralDateRange`. -/
def neutralOf (r : DateRange) : DateRange :=
  ⟨⟨MINYEAR, r.low.month, neutralDay r.low⟩,
    ⟨if r.spansYears then MINYEAR + 1 else MINYEAR, r.high.month, neutralDay r.high⟩⟩

/-! ## Stored-date queries (models.py: WeatherHistory.dates lines 337-344,
WeatherData.history_date_ranges lines 462-475)

Both operations use calendar dates only through their total order and the
one-day successor, so dates are represented here by their ordinal day number
(Python `date.toordinal`), under which `date.min` is 1, `date.max` is
3652059, and `+ timedelta(days=1)` is `+ 1`. -/

/-- Ordinal of Python `datetime.date.min` (0001-01-01). -/
def dateMinOrd : Nat := 1

/-- Ordinal of Python `datetime.date.max` (9999-12-31). -/
def dateMaxOrd : Nat := 3652059

/-- One iteration of the merge loop of `WeatherData.history_date_ranges`
(models.py lines 466-473): state is `(first, last, date_ranges)`; a date more
than one day past `last` closes the current range, anything else extends it. -/
def historyDateRangesStep (s : Nat × Nat × List (Nat × Nat)) (current : Nat) :
    Nat × Nat × List (Nat × Nat) :=
  if current > s.2.1 + 1 then (current, current, s.2.2 ++ [(s.1, s.2.1)])
  else (s.1, current, s.2.2)

/-- Final `date_ranges.append(DateRange(first, last))` applied to the loop
state of `history_date_ranges`. -/
def finishState (s : Nat × Nat × List (Nat × Nat)) : List (Nat × Nat) :=
  s.2.2 ++ [(s.1, s.2.1)]

/-- Model of `WeatherData.history_date_ranges` (models.py lines 462-475) on
the sorted stored date list: `first = last = history_dates[0]`, the loop runs
over the whole list, and the last open range is appended at the end.  An
empty or missing date list yields no ranges (the `if history_dates:` guard). -/
def historyDateRanges (historyDates : List Nat) : List (Nat × Nat) :=
  match historyDates with
  | [] => []
  | h :: _ => finishState (historyDates.foldl historyDateRangesStep (h, h, []))

/-- Modelled from the spec: "merge the sorted date list into maximal runs
where each date is exactly one calendar day after the previous one; a gap of
more than one day starts a new range."  Specification-side definition used
to state the C5 refinement; `maximalRunsGo first last` carries the currently
open run. -/
def maximalRunsGo (first last : Nat) : List Nat → List (Nat × Nat)
  | [] => [(first, last)]
  | c :: rest =>
      if c = last + 1 then maximalRunsGo first c rest
      else (first, last) :: maximalRunsGo c c rest

/-- Specification-side companion of `maximalRunsGo` for the whole list. -/
def maximalRuns : List Nat → List (Nat × Nat)
  | [] => []
  | h :: t => maximalRunsGo h h t

/-- Model of `WeatherHistory.dates` (models.py lines 337-344).  The stored
keys have already been parsed into a date list (`storedDates`); the method
sorts it, returns `None` when there are no dates, and otherwise filters by
`starting_date <= d <= ending_date`, where an omitted `ending_date` becomes
`date.max` when `starting_date` is `date.min` and `starting_date + 1 day`
otherwise. -/
def datesQuery (storedDates : List Nat) (startingDate : Nat)
    (endingDate : Option Nat) : Option (List Nat) :=
  let ds := storedDates.insertionSort (· ≤ ·)
  if ds = [] then none
  else
    let ending := match endingDate with
      | some e => e
      | none => if dateMinOrd = startingDate then dateMaxOrd else startingDate + 1
    some (ds.filter (fun d => decide (startingDate ≤ d ∧ d ≤ ending)))

/-! ## Archive blob store (models.py, class ArchiveDataSource)

The store state carries the archive file's entry list (append-only zip
members in write order), the in-memory duplicate-check set
`self._archive_members`, and the backup file `{archive}.bck` when present.
Entry payloads are opaque strings. -/

structure ArchiveEntry where
  name : String
  content : String
deriving DecidableEq, Repr

structure ArchiveState where
  archive : List ArchiveEntry
  members : List String
  backup : Option (List ArchiveEntry)
deriving DecidableEq, Repr

/-- Member-name scan of `ArchiveDataSource.__init__` (models.py lines 51-56):
walk the name list, adding each name to the member set, and raise
`WeatherDataError` at the first repeated name.  The raise aborts the scan, so
the result carries the members accumulated so far together with the error. -/
def scanMembers : List String → List String → List String × Option PyError
  | [], acc => (acc, none)
  | n :: rest, acc =>
      if n ∈ acc then
        (acc, some (.weatherDataError
          ("Yikes... Found duplicate weather history: " ++ n)))
      else scanMembers rest (acc ++ [n])

/-- Model of `ArchiveDataSource.__init__` on an existing archive (models.py
lines 49-60): the duplicate-name `WeatherDataError` raised by the scan is
caught by `except err.WeatherDataError: pass` and swallowed, so construction
completes with the partial member set; any other exception is wrapped in a
new `WeatherDataError` and raised. -/
def initExistingArchive (names : List String) : Except PyError (List String) :=
  match scanMembers names [] with
  | (acc, none) => .ok acc
  | (acc, some (.weatherDataError _)) => .ok acc
  | (_, some e) => .error (.weatherDataError
      ("Yikes... Error reading archive name list: " ++ pyStr e))

/-- Model of `ArchiveDataSource.data_path_exists` (models.py lines 69-71):
opens the archive file on disk and checks the member path there (it does not
consult the in-memory member set). -/
def dataPathExists (s : ArchiveState) (dataPath : String) : Bool :=
  (s.archive.map ArchiveEntry.name).contains dataPath

/-- One action the caller performs while holding the write handle: a
`write_function(data_path, content)` call, or any exception raised by the
caller's own logic inside the scope. -/
inductive TxStep where
  | write (dataPath : String) (content : String)
  | fail (e : PyError)
deriving DecidableEq, Repr

/-- Wrapping applied by the `except Exception` clause of
`ArchiveDataSource.writer` (models.py lines 128-130): the original error is
replaced by a `WeatherDataError` carrying its text. -/
def wrapWriterError (e : PyError) : PyError :=
  .weatherDataError ("Yikes!!! Error adding entry: " ++ pyStr e)

/-- Body of the write-transaction (models.py lines 117-127): each
`write_function` call fails with `WeatherDataError` when the path is already
in the member set, and otherwise appends the entry to the archive and the
path to the member set; a raised error aborts the remaining steps.  The
state at the moment of the error is kept (mutations are not undone here). -/
def runSteps : ArchiveState → List TxStep → ArchiveState × Option PyError
  | s, [] => (s, none)
  | s, .write dataPath content :: rest =>
      if dataPath ∈ s.members then
        (s, some (.weatherDataError ("'" ++ dataPath ++ "' already exists...")))
      else
        runSteps
          { s with archive := s.archive ++ [⟨dataPath, content⟩],
                   members := s.members ++ [dataPath] } rest
  | s, .fail e :: _ => (s, some e)

/-- Model of `ArchiveDataSource.writer` (models.py lines 108-137): copy the
archive to the `.bck` backup, run the caller's steps, then on success delete
the backup (commit), and on any error wrap it, delete the modified archive,
rename the backup over it (rollback) and re-raise the wrapped error. -/
def runWriter (s : ArchiveState) (script : List TxStep) :
    ArchiveState × Option PyError :=
  let afterBackup : ArchiveState := { s with backup := some s.archive }
  match runSteps afterBackup script with
  | (s1, none) => ({ s1 with backup := none }, none)
  | (s1, some e) =>
      ({ s1 with archive := s.archive, backup := none }, some (wrapWriterError e))

/-! ## HistoryCatalog add (models.py, WeatherHistory.add lines 316-335)

`add` opens one `writer()` transaction and loops over the dates: each
iteration first invokes the callback (which may raise), then calls the
provider; a `recorded` response is written under the date's pathname (and the
loop breaks when the provider reports the API usage limit exceeded), while an
`error` or malformed response breaks the loop without raising.  The sequence
of handle actions this loop performs is compiled by `buildAddScript`; running
it under `runWriter` is the transaction, whose step processing stops at the
first raised error exactly as the exception aborts the Python loop. -/

/-- Possible shapes of `WeatherProviderAPI.recorded`-style responses: the
`RECORDED` payload with `API_CALLS_MADE`, an `ERROR` response, or a response
with neither key. -/
inductive ProviderResponse where
  | recorded (payload : String) (apiCallsMade : Nat)
  | error (msg : String)
  | malformed
deriving DecidableEq, Repr

/-- Model of `WeatherProviderAPI.API_USAGE_LIMIT`. -/
def API_USAGE_LIMIT : Nat := 900

/-- Zero-padded two-digit rendering used by `date.isoformat`. -/
def pad2 (n : Nat) : String :=
  if n < 10 then "0" ++ toString n else toString n

/-- Zero-padded four-digit rendering used by `date.isoformat`. -/
def pad4 (n : Nat) : String :=
  if n < 10 then "000" ++ toString n
  else if n < 100 then "00" ++ toString n
  else if n < 1000 then "0" ++ toString n
  else toString n

/-- Model of `WeatherHistory.make_pathname` (models.py lines 355-358):
`{alias}/{alias}-YYYYMMDD.json` with the alias lower-cased. -/
def makePathname (aliasName : String) (d : Date) (ext : String := "json") :
    String :=
  let pfx := aliasName.toLower
  pfx ++ "/" ++ pfx ++ "-" ++ pad4 d.year ++ pad2 d.month ++ pad2 d.day
    ++ "." ++ ext

/-- Handle actions performed by the loop of `WeatherHistory.add` for a given
date list, callback behavior and provider behavior (models.py lines
318-335). -/
def buildAddScript (aliasName : String) (callback : Date → Option PyError)
    (provider : Date → ProviderResponse) : List Date → List TxStep
  | [] => []
  | d :: rest =>
      match callback d with
      | some e => [.fail e]
      | none =>
          match provider d with
          | .recorded payload apiCalls =>
              .write (makePathname aliasName d) payload ::
                (if apiCalls > API_USAGE_LIMIT then []
                 else buildAddScript aliasName callback provider rest)
          | .error _ => []
          | .malformed => []

/-- Model of `WeatherHistory.add` (models.py lines 316-335): the whole batch
runs inside one `writer()` transaction. -/
def weatherHistoryAdd (s : ArchiveState) (aliasName : String)
    (dates : List Date) (callback : Date → Option PyError)
    (provider : Date → ProviderResponse) : ArchiveState × Option PyError :=
  runWriter s (buildAddScript aliasName callback provider dates)

/-! ## Season aligner (gui_app.py, WeatherDomain._get_history_date_mapping,
lines 419-485)

`LocationDateRange` is a `(Location, DateRange)` pair; only the location's
name takes part in the `eq` comparison of step 5, so the location is
represented by its name.  The 25-slot `month_slots` array is represented as
a function from slot index to its entity list (the code never indexes
outside 0..24 because neutral months lie in 1..12 and the year-span offset
adds at most 12). -/

structure LDR where
  name : String
  range : DateRange
deriving DecidableEq, Repr

/-- Model of the inner `eq` helper (gui_app.py lines 473-474): same location
name, same low date and same high date. -/
def eqLDR (lhs rhs : LDR) : Bool :=
  lhs.name == rhs.name && lhs.range.low == rhs.range.low &&
    lhs.range.high == rhs.range.high

/-- Model of the list comprehension
`[ldr[1].as_neutral_date_range() for ldr in location_date_ranges]`
(gui_app.py line 426): the first raised error propagates. -/
def neutralRanges : List LDR → Except PyError (List DateRange)
  | [] => .ok []
  | ldr :: rest => do
      let nr ← ldr.range.asNeutralDateRange
      let rest2 ← neutralRanges rest
      pure (nr :: rest2)

/-- Marking of one `(ldr, neutral)` pair (gui_app.py lines 430-436): append
`ldr` to every slot from the neutral low month to the neutral high month,
the latter shifted by 12 when the original range spans a year boundary. -/
def markStep (slots : Nat → List LDR) (p : LDR × DateRange) :
    Nat → List LDR :=
  fun m =>
    if p.2.low.month ≤ m ∧
        m ≤ p.2.high.month + (if p.1.range.spansYears then 12 else 0)
    then slots m ++ [p.1] else slots m

/-- The month-slot marking loop (gui_app.py lines 429-436) over all pairs,
starting from 25 empty slots. -/
def markSlots (pairs : List (LDR × DateRange)) : Nat → List LDR :=
  pairs.foldl markStep (fun _ => [])

/-- One iteration of the reconciliation pass (gui_app.py lines 440-450) at
slot `idx`: when the slot is non-empty but not full and the mirrored slot
`idx + 12` is non-empty, entities that do not span a year boundary move from
`idx` to `idx + 12`. -/
def reconcileStep (n : Nat) (slots : Nat → List LDR) (idx : Nat) :
    Nat → List LDR :=
  if slots idx ≠ [] ∧ (slots idx).length ≠ n then
    if slots (idx + 12) ≠ [] then
      fun m =>
        if m = idx + 12 then
          slots m ++ (slots idx).filter
            (fun ldr => decide (¬ ldr.range.spansYears))
        else if m = idx then
          (slots idx).filter (fun ldr => decide ldr.range.spansYears)
        else slots m
    else slots
  else slots

/-- The reconciliation pass: the loop enumerates the slots and breaks once
`12 < idx`, so exactly slots 0..12 are processed, in order. -/
def reconcile (n : Nat) (slots : Nat → List LDR) : Nat → List LDR :=
  (List.range 13).foldl (reconcileStep n) slots

/-- One iteration of the run scan (gui_app.py lines 455-463), which depends
on the slots only through their occupancy (`if month_slot:`); the state is
`(start, end, intersecting_months)` and Python's integer truthiness makes
`start = 0` the "no open run" marker (slot 0 is always empty). -/
def scanStep (occ : Nat → Bool) (st : Nat × Nat × List (Nat × Nat))
    (idx : Nat) : Nat × Nat × List (Nat × Nat) :=
  if occ idx then
    if st.1 ≠ 0 then (st.1, idx, st.2.2) else (idx, idx, st.2.2)
  else if st.1 ≠ 0 then (0, 0, st.2.2 ++ [(st.1, st.2.1)])
  else st

/-- Model of the run scan over all 25 slots plus the trailing flush
(gui_app.py lines 453-465). -/
def intersectingMonths (occ : Nat → Bool) : List (Nat × Nat) :=
  let st := (List.range 25).foldl (scanStep occ) (0, 0, [])
  if st.1 ≠ 0 then st.2.2 ++ [(st.1, st.2.1)] else st.2.2

/-- Model of the per-entity output map construction (gui_app.py lines
477-483): a 25-slot boolean list, true exactly at the slots of the winning
run where an `eq`-matching entity is present. -/
def monthSlotMap (slots : Nat → List LDR) (startM endM : Nat) (ldr : LDR) :
    List Bool :=
  (List.range 25).map (fun slot =>
    decide (startM ≤ slot ∧ slot ≤ endM) &&
      (slots slot).any (fun sldr => eqLDR ldr sldr))

/-- Model of `_get_history_date_mapping` (gui_app.py lines 419-485): assert
non-empty input (the assert raises on an empty list), project each range to
its neutral form, mark the month slots, reconcile, scan for runs; more than
one run shows an error dialog and returns an empty mapping list, zero runs
hits `intersecting_months[0]` and raises `IndexError`, and exactly one run
produces the per-entity month-slot maps. -/
def getHistoryDateMapping (l : List LDR) :
    Except PyError (List (String × DateRange × List Bool)) :=
  if l.length = 0 then
    .error (.otherError "Yikes... Location date ranges are emtpy!")
  else do
    let neutrals ← neutralRanges l
    let slots0 := markSlots (l.zip neutrals)
    let slots1 := reconcile l.length slots0
    let runs := intersectingMonths (fun idx => decide (slots1 idx ≠ []))
    if 1 < runs.length then pure []
    else
      match runs with
      | [] => .error (.indexError "list index out of range")
      | (startM, endM) :: _ =>
          pure (l.map (fun ldr =>
            (ldr.name, ldr.range, monthSlotMap slots1 startM endM ldr)))

/-! ## Proofs about the date layer -/

theorem neutralDay_eq (d : Date) :
    neutralDay d = if d.month = 2 ∧ d.day = 29 then 28 else d.day := by
  unfold neutralDay
  split_ifs <;> simp_all

theorem dateLe_iff (a b : Date) :
    dateLe a b ↔ (a.year < b.year ∨ (a.year = b.year ∧
      (a.month < b.month ∨ (a.month = b.month ∧ a.day ≤ b.day)))) := by
  cases a; cases b
  unfold dateLe dateLt
  simp only [Date.mk.injEq]
  omega

theorem not_dateLt_iff (a b : Date) : ¬ dateLt b a ↔ dateLe a b := by
  cases a; cases b
  unfold dateLe dateLt
  simp only [Date.mk.injEq]
  omega

theorem isValidDate_neutral (y : Nat) (hy : y = 1 ∨ y = 2) (d : Date)
    (h : isValidDate d) : isValidDate ⟨y, d.month, neutralDay d⟩ := by
  unfold isValidDate daysInMonth isLeapYear at h ⊢
  unfold neutralDay
  rcases hy with rfl | rfl <;> dsimp only at h ⊢ <;>
    split_ifs at h ⊢ <;> omega

theorem mkDate_ok (y m d : Nat) (h : isValidDate ⟨y, m, d⟩) :
    mkDate y m d = .ok ⟨y, m, d⟩ := by
  unfold mkDate
  rw [if_pos h]

theorem neutralOf_year_cases (r : DateRange) :
    (if r.spansYears then MINYEAR + 1 else MINYEAR) = 1 ∨
      (if r.spansYears then MINYEAR + 1 else MINYEAR) = 2 := by
  unfold MINYEAR
  split_ifs <;> simp

theorem neutral_le (r : DateRange) (h : r.valid) :
    dateLe (neutralOf r).low (neutralOf r).high := by
  obtain ⟨h1, h2, h3⟩ := h
  rw [dateLe_iff] at h3 ⊢
  unfold neutralOf DateRange.spansYears neutralDay
  unfold isValidDate daysInMonth isLeapYear at h1 h2
  dsimp only at h3 ⊢
  split_ifs at h1 h2 ⊢ <;> unfold MINYEAR <;> omega

theorem neutral_eval (r : DateRange) (h : r.valid) :
    r.asNeutralDateRange = .ok (neutralOf r) := by
  obtain ⟨h1, h2, h3⟩ := h
  unfold DateRange.asNeutralDateRange
  rw [mkDate_ok _ _ _ (isValidDate_neutral MINYEAR (Or.inl rfl) r.low h1),
    mkDate_ok _ _ _ (isValidDate_neutral _ (neutralOf_year_cases r) r.high h2)]
  simp only [bind, Except.bind]
  unfold DateRange.make
  dsimp only
  have hle := (not_dateLt_iff (neutralOf r).low (neutralOf r).high).mpr
    (neutral_le r ⟨h1, h2, h3⟩)
  dsimp only [neutralOf] at hle
  rw [if_neg hle]
  rfl

theorem neutralOf_valid (r : DateRange) (h : r.valid) : (neutralOf r).valid := by
  refine ⟨?_, ?_, neutral_le r h⟩
  · exact isValidDate_neutral MINYEAR (Or.inl rfl) r.low h.1
  · exact isValidDate_neutral _ (neutralOf_year_cases r) r.high h.2.1

theorem neutralOf_spansYears (r : DateRange) :
    (neutralOf r).spansYears ↔ r.spansYears := by
  unfold neutralOf DateRange.spansYears MINYEAR
  dsimp only
  split_ifs with hs <;> simp <;> omega

theorem neutralDay_idem (y2 : Nat) (d : Date) (h : isValidDate d) :
    neutralDay ⟨y2, d.month, neutralDay d⟩ = neutralDay d := by
  unfold neutralDay
  unfold isValidDate daysInMonth isLeapYear at h
  dsimp only
  split_ifs at h ⊢ <;> omega

theorem neutralOf_neutralOf (r : DateRange) (h : r.valid) :
    neutralOf (neutralOf r) = neutralOf r := by
  by_cases hsp : r.spansYears
  · have hs2 : (⟨⟨MINYEAR, r.low.month, neutralDay r.low⟩,
        ⟨MINYEAR + 1, r.high.month, neutralDay r.high⟩⟩ : DateRange).spansYears := by
      unfold DateRange.spansYears MINYEAR
      dsimp only
      omega
    simp only [neutralOf, if_pos hsp, if_pos hs2]
    rw [neutralDay_idem MINYEAR r.low h.1, neutralDay_idem (MINYEAR + 1) r.high h.2.1]
  · have hs2 : ¬ (⟨⟨MINYEAR, r.low.month, neutralDay r.low⟩,
        ⟨MINYEAR, r.high.month, neutralDay r.high⟩⟩ : DateRange).spansYears := by
      unfold DateRange.spansYears MINYEAR
      dsimp only
      omega
    simp only [neutralOf, if_neg hsp, if_neg hs2]
    rw [neutralDay_idem MINYEAR r.low h.1, neutralDay_idem MINYEAR r.high h.2.1]

/-- C6: for every valid DateRange `r`, `as_neutral_date_range` sets the low
year to the epoch year `E = MINYEAR`, sets the high year to `E + 1` exactly
when `r` spans a year boundary (to `E` otherwise), and keeps every month and
day component unchanged except that day 29 of February is coerced to 28. -/
theorem claim_c6_neutral_components (r : DateRange) (h : r.valid) :
    ∃ nr : DateRange, r.asNeutralDateRange = .ok nr ∧
      nr.low.year = MINYEAR ∧
      nr.high.year = (if r.spansYears then MINYEAR + 1 else MINYEAR) ∧
      nr.low.month = r.low.month ∧ nr.high.month = r.high.month ∧
      nr.low.day = (if r.low.month = 2 ∧ r.low.day = 29 then 28 else r.low.day) ∧
      nr.high.day = (if r.high.month = 2 ∧ r.high.day = 29 then 28 else r.high.day) :=
  ⟨neutralOf r, neutral_eval r h, rfl, rfl, rfl, rfl,
    neutralDay_eq r.low, neutralDay_eq r.high⟩

/-- Witness for C6 at the concrete range 2020-12-01 .. 2021-01-01. -/
theorem claim_c6_witness :
    (⟨⟨2020, 12, 1⟩, ⟨2021, 1, 1⟩⟩ : DateRange).valid ∧
      (∃ nr : DateRange,
        (⟨⟨2020, 12, 1⟩, ⟨2021, 1, 1⟩⟩ : DateRange).asNeutralDateRange = .ok nr ∧
        nr.low.year = MINYEAR ∧
        nr.high.year = (if (⟨⟨2020, 12, 1⟩, ⟨2021, 1, 1⟩⟩ : DateRange).spansYears
          then MINYEAR + 1 else MINYEAR) ∧
        nr.low.month = 12 ∧ nr.high.month = 1 ∧
        nr.low.day = (if (12 : Nat) = 2 ∧ (1 : Nat) = 29 then 28 else 1) ∧
        nr.high.day = (if (1 : Nat) = 2 ∧ (1 : Nat) = 29 then 28 else 1)) :=
  ⟨by decide, claim_c6_neutral_components ⟨⟨2020, 12, 1⟩, ⟨2021, 1, 1⟩⟩ (by decide)⟩

/-- C7: `as_neutral_date_range` is idempotent — applying it a second time to
the neutral result returns the same neutral range. -/
theorem claim_c7_idempotent (r : DateRange) (h : r.valid) :
    r.asNeutralDateRange.bind DateRange.asNeutralDateRange = r.asNeutralDateRange := by
  rw [neutral_eval r h]
  show DateRange.asNeutralDateRange (neutralOf r) = _
  rw [neutral_eval (neutralOf r) (neutralOf_valid r h), neutralOf_neutralOf r h]

/-- Witness for C7 at the concrete single-day range 2020-02-29. -/
theorem claim_c7_witness :
    (⟨⟨2020, 2, 29⟩, ⟨2020, 2, 29⟩⟩ : DateRange).valid ∧
      (⟨⟨2020, 2, 29⟩, ⟨2020, 2, 29⟩⟩ : DateRange).asNeutralDateRange.bind
          DateRange.asNeutralDateRange =
        (⟨⟨2020, 2, 29⟩, ⟨2020, 2, 29⟩⟩ : DateRange).asNeutralDateRange :=
  ⟨by decide, claim_c7_idempotent ⟨⟨2020, 2, 29⟩, ⟨2020, 2, 29⟩⟩ (by decide)⟩

/-- C10: `as_neutral_date_range` is total on valid ranges — it raises no
error and its result again satisfies the DateRange invariant (valid dates
with low ≤ high). -/
theorem claim_c10_total (r : DateRange) (h : r.valid) :
    ∃ nr, r.asNeutralDateRange = .ok nr ∧ nr.valid :=
  ⟨neutralOf r, neutral_eval r h, neutralOf_valid r h⟩

/-- Witness for C10 at a range that starts on Feb 29 and spans two year
boundaries. -/
theorem claim_c10_witness :
    (⟨⟨2020, 2, 29⟩, ⟨2022, 6, 1⟩⟩ : DateRange).valid ∧
      (∃ nr, (⟨⟨2020, 2, 29⟩, ⟨2022, 6, 1⟩⟩ : DateRange).asNeutralDateRange =
        .ok nr ∧ nr.valid) :=
  ⟨by decide, claim_c10_total ⟨⟨2020, 2, 29⟩, ⟨2022, 6, 1⟩⟩ (by decide)⟩

/-! ## Proofs about the stored-date queries -/

theorem foldl_ranges_eq (xs : List Nat) : ∀ (first last : Nat)
    (acc : List (Nat × Nat)), List.Chain' (· < ·) (last :: xs) →
    finishState (xs.foldl historyDateRangesStep (first, last, acc)) =
      acc ++ maximalRunsGo first last xs := by
  induction xs with
  | nil =>
      intro first last acc _
      simp [maximalRunsGo, finishState]
  | cons c t ih =>
      intro first last acc h
      have hlt : last < c := (List.chain'_cons.mp h).1
      have ht : List.Chain' (· < ·) (c :: t) := (List.chain'_cons.mp h).2
      rw [List.foldl_cons]
      have happ : historyDateRangesStep (first, last, acc) c =
          if c > last + 1 then (c, c, acc ++ [(first, last)])
          else (first, c, acc) := rfl
      rw [happ]
      unfold maximalRunsGo
      by_cases hc : c > last + 1
      · rw [if_pos hc, if_neg (by omega : ¬ c = last + 1), ih c c _ ht]
        simp
      · rw [if_neg hc, if_pos (by omega : c = last + 1)]
        exact ih first c acc ht

theorem maximalRunsGo_flat (xs : List Nat) : ∀ first last, first ≤ last →
    List.Chain' (· < ·) (last :: xs) →
    (maximalRunsGo first last xs).flatMap
        (fun p => List.range' p.1 (p.2 + 1 - p.1)) =
      List.range' first (last + 1 - first) ++ xs := by
  induction xs with
  | nil =>
      intro first last _ _
      simp [maximalRunsGo]
  | cons c t ih =>
      intro first last hfl h
      have hlt : last < c := (List.chain'_cons.mp h).1
      have ht : List.Chain' (· < ·) (c :: t) := (List.chain'_cons.mp h).2
      unfold maximalRunsGo
      by_cases hc : c = last + 1
      · rw [if_pos hc, ih first c (by omega) ht]
        have h1 : c + 1 - first = (last + 1 - first) + 1 := by omega
        have h2 : first + (last + 1 - first) = c := by omega
        rw [h1, List.range'_1_concat, h2, List.append_assoc]
        rfl
      · rw [if_neg hc]
        rw [List.flatMap_cons, ih c c (Nat.le_refl c) ht]
        have h1 : c + 1 - c = 1 := by omega
        rw [h1, List.range'_one]
        rfl

theorem maximalRunsGo_chain (xs : List Nat) : ∀ first last, first ≤ last →
    List.Chain' (· < ·) (last :: xs) →
    List.Chain' (fun p q : Nat × Nat => p.2 + 1 < q.1)
        (maximalRunsGo first last xs) ∧
      ∃ b, (maximalRunsGo first last xs).head? = some (first, b) ∧ last ≤ b := by
  induction xs with
  | nil =>
      intro first last _ _
      exact ⟨List.chain'_singleton _, last, rfl, Nat.le_refl last⟩
  | cons c t ih =>
      intro first last hfl h
      have hlt : last < c := (List.chain'_cons.mp h).1
      have ht : List.Chain' (· < ·) (c :: t) := (List.chain'_cons.mp h).2
      unfold maximalRunsGo
      by_cases hc : c = last + 1
      · rw [if_pos hc]
        obtain ⟨hch, b, hh, hb⟩ := ih first c (by omega) ht
        exact ⟨hch, b, hh, by omega⟩
      · rw [if_neg hc]
        obtain ⟨hch, b, hh, hb⟩ := ih c c (Nat.le_refl c) ht
        refine ⟨List.chain'_cons'.mpr ⟨?_, hch⟩, last, rfl, Nat.le_refl last⟩
        intro q hq
        rw [hh] at hq
        cases hq
        dsimp only
        omega

theorem maximalRunsGo_bounds (xs : List Nat) : ∀ first last, first ≤ last →
    List.Chain' (· < ·) (last :: xs) →
    ∀ p ∈ maximalRunsGo first last xs, p.1 ≤ p.2 := by
  induction xs with
  | nil =>
      intro first last hfl _ p hp
      unfold maximalRunsGo at hp
      rw [List.mem_singleton] at hp
      subst hp
      exact hfl
  | cons c t ih =>
      intro first last hfl h p hp
      have hlt : last < c := (List.chain'_cons.mp h).1
      have ht : List.Chain' (· < ·) (c :: t) := (List.chain'_cons.mp h).2
      unfold maximalRunsGo at hp
      by_cases hc : c = last + 1
      · rw [if_pos hc] at hp
        exact ih first c (by omega) ht p hp
      · rw [if_neg hc] at hp
        rcases List.mem_cons.mp hp with rfl | hp2
        · exact hfl
        · exact ih c c (Nat.le_refl c) ht p hp2

theorem historyDateRanges_eq_maximalRuns (l : List Nat)
    (h : List.Chain' (· < ·) l) : historyDateRanges l = maximalRuns l := by
  cases l with
  | nil => rfl
  | cons h0 t =>
      show finishState ((h0 :: t).foldl historyDateRangesStep (h0, h0, [])) =
        maximalRunsGo h0 h0 t
      rw [List.foldl_cons]
      have hstep : historyDateRangesStep (h0, h0, []) h0 = (h0, h0, []) := by
        unfold historyDateRangesStep
        rw [if_neg (by omega : ¬ h0 > h0 + 1)]
      rw [hstep]
      exact foldl_ranges_eq t h0 h0 [] h

/-- C5: `history_date_ranges` on a sorted stored date list returns exactly
the maximal runs of consecutive calendar dates: it agrees with the
specification-side `maximalRuns`, the concatenation of the returned closed
ranges reproduces the date list (so inside a range every date is one day
after the previous), consecutive ranges are separated by a gap of more than
one day, every range has `low ≤ high`, and day-offsets `[1,2,3,5,6,9]`
produce `[(1,3),(5,6),(9,9)]`. -/
theorem claim_c5_history_date_ranges (l : List Nat)
    (h : List.Chain' (· < ·) l) :
    historyDateRanges l = maximalRuns l ∧
    (historyDateRanges l).flatMap (fun p => List.range' p.1 (p.2 + 1 - p.1)) = l ∧
    List.Chain' (fun p q : Nat × Nat => p.2 + 1 < q.1) (historyDateRanges l) ∧
    (∀ p ∈ historyDateRanges l, p.1 ≤ p.2) ∧
    historyDateRanges [1, 2, 3, 5, 6, 9] = [(1, 3), (5, 6), (9, 9)] := by
  refine ⟨historyDateRanges_eq_maximalRuns l h, ?_, ?_, ?_, by decide⟩
  · rw [historyDateRanges_eq_maximalRuns l h]
    cases l with
    | nil => simp [maximalRuns]
    | cons h0 t =>
        unfold maximalRuns
        rw [maximalRunsGo_flat t h0 h0 (Nat.le_refl h0) h]
        simp
  · rw [historyDateRanges_eq_maximalRuns l h]
    cases l with
    | nil => simp [maximalRuns]
    | cons h0 t => exact (maximalRunsGo_chain t h0 h0 (Nat.le_refl h0) h).1
  · rw [historyDateRanges_eq_maximalRuns l h]
    cases l with
    | nil => simp [maximalRuns]
    | cons h0 t => exact maximalRunsGo_bounds t h0 h0 (Nat.le_refl h0) h

/-- Witness for C5 at the day-offset list of the specification example. -/
theorem claim_c5_witness :
    List.Chain' (· < ·) [1, 2, 3, 5, 6, 9] ∧
      (historyDateRanges [1, 2, 3, 5, 6, 9] = maximalRuns [1, 2, 3, 5, 6, 9] ∧
      (historyDateRanges [1, 2, 3, 5, 6, 9]).flatMap
          (fun p => List.range' p.1 (p.2 + 1 - p.1)) = [1, 2, 3, 5, 6, 9] ∧
      List.Chain' (fun p q : Nat × Nat => p.2 + 1 < q.1)
          (historyDateRanges [1, 2, 3, 5, 6, 9]) ∧
      (∀ p ∈ historyDateRanges [1, 2, 3, 5, 6, 9], p.1 ≤ p.2) ∧
      historyDateRanges [1, 2, 3, 5, 6, 9] = [(1, 3), (5, 6), (9, 9)]) :=
  ⟨by norm_num [List.chain'_cons, List.chain'_singleton],
    claim_c5_history_date_ranges [1, 2, 3, 5, 6, 9]
      (by norm_num [List.chain'_cons, List.chain'_singleton])⟩

/-- C8 counterexample: with stored dates at ordinals 2 and 10 and only the
lower bound 2 (no upper bound), `dates` returns `[2]`, not the full
tail `[2, 10]` the claim demands — the omitted upper bound is replaced by
`starting_date + 1 day`, not by infinity, whenever the lower bound is not
`date.min`. -/
theorem claim_c8_counterexample :
    datesQuery [2, 10] 2 none = some [2] ∧
      datesQuery [2, 10] 2 none ≠ some [2, 10] := by
  constructor <;> decide

/-- C8 amended: for a nonempty stored date list of valid dates and a query
with only a lower bound `f`, `dates` returns an ascending list containing
exactly the stored dates `d` with `f ≤ d` — but additionally truncated to
`d ≤ f + 1` whenever `f` is not `date.min`; the upper end is unbounded only
for the default lower bound `date.min`. -/
theorem claim_c8_amended (stored : List Nat) (f : Nat) (hne : stored ≠ [])
    (hvalid : ∀ d ∈ stored, dateMinOrd ≤ d ∧ d ≤ dateMaxOrd) :
    ∃ out, datesQuery stored f none = some out ∧
      List.Sorted (· ≤ ·) out ∧
      ∀ d, d ∈ out ↔ (d ∈ stored ∧ f ≤ d ∧ (f = dateMinOrd ∨ d ≤ f + 1)) := by
  unfold datesQuery
  have hperm := List.perm_insertionSort (· ≤ ·) stored
  have hsorted := List.sorted_insertionSort (· ≤ ·) stored
  have hne2 : stored.insertionSort (· ≤ ·) ≠ [] := by
    intro h0
    exact hne (List.Perm.eq_nil (h0 ▸ hperm).symm)
  rw [if_neg hne2]
  dsimp only
  by_cases hf : dateMinOrd = f
  · rw [if_pos hf]
    refine ⟨_, rfl, hsorted.filter _, fun d => ?_⟩
    rw [List.mem_filter, hperm.mem_iff, decide_eq_true_eq]
    constructor
    · rintro ⟨hmem, hle, _⟩
      exact ⟨hmem, hle, Or.inl hf.symm⟩
    · rintro ⟨hmem, hle, _⟩
      exact ⟨hmem, hle, (hvalid d hmem).2⟩
  · rw [if_neg hf]
    refine ⟨_, rfl, hsorted.filter _, fun d => ?_⟩
    rw [List.mem_filter, hperm.mem_iff, decide_eq_true_eq]
    constructor
    · rintro ⟨hmem, hle, hub⟩
      exact ⟨hmem, hle, Or.inr hub⟩
    · rintro ⟨hmem, hle, hor⟩
      rcases hor with hmin | hub
      · exact absurd hmin.symm hf
      · exact ⟨hmem, hle, hub⟩

/-! ## Proofs about the archive store -/

theorem runWriter_backup_none (s : ArchiveState) (script : List TxStep) :
    (runWriter s script).1.backup = none := by
  simp only [runWriter]
  rcases hrs : runSteps { s with backup := some s.archive } script with ⟨s1, e?⟩
  cases e? <;> rfl

theorem runWriter_error_restores (s : ArchiveState) (script : List TxStep)
    (e : PyError) (h : (runWriter s script).2 = some e) :
    (runWriter s script).1.archive = s.archive ∧
      ∃ e0, e = wrapWriterError e0 := by
  simp only [runWriter] at h ⊢
  rcases hrs : runSteps { s with backup := some s.archive } script with ⟨s1, e?⟩
  rw [hrs] at h
  cases e? with
  | none => simp at h
  | some e0 =>
      dsimp only at h ⊢
      refine ⟨rfl, e0, ?_⟩
      injection h with h2
      exact h2.symm

theorem runSteps_fail_tail_isSome (ws : List TxStep) (e : PyError) :
    ∀ s, (runSteps s (ws ++ [.fail e])).2.isSome = true := by
  induction ws with
  | nil => intro s; rfl
  | cons w rest ih =>
      intro s
      cases w with
      | write p c =>
          rw [List.cons_append]
          simp only [runSteps]
          split_ifs
          · rfl
          · exact ih _
      | fail e2 => rfl

theorem runWriter_of_runSteps_some (s : ArchiveState) (script : List TxStep)
    (h : (runSteps { s with backup := some s.archive } script).2.isSome = true) :
    (runWriter s script).1.archive = s.archive ∧
      (runWriter s script).2.isSome = true := by
  simp only [runWriter]
  rcases hrs : runSteps { s with backup := some s.archive } script with ⟨s1, e?⟩
  rw [hrs] at h
  cases e? with
  | none => simp at h
  | some e0 => exact ⟨rfl, rfl⟩

theorem runSteps_writes_ok (steps : List (String × String)) :
    ∀ s : ArchiveState,
    (∀ p ∈ steps.map Prod.fst, p ∉ s.members) →
    (steps.map Prod.fst).Nodup →
    runSteps s (steps.map fun pc => TxStep.write pc.1 pc.2) =
      ({ s with archive := s.archive ++ steps.map (fun pc => ⟨pc.1, pc.2⟩),
                members := s.members ++ steps.map Prod.fst }, none) := by
  induction steps with
  | nil => intro s _ _; simp [runSteps]
  | cons pc rest ih =>
      intro s hfresh hnodup
      rcases pc with ⟨p, c⟩
      rw [List.map_cons] at hnodup
      have hcons := List.nodup_cons.mp hnodup
      simp only [List.map_cons, runSteps]
      rw [if_neg (hfresh p (by simp))]
      rw [ih _ ?_ ?_]
      · simp
      · intro q hq hmem
        dsimp only at hmem
        rcases List.mem_append.mp hmem with hin | hin
        · exact hfresh q (by simp [hq]) hin
        · rcases List.mem_singleton.mp hin with rfl
          exact hcons.1 hq
      · exact hcons.2

/-- C2 counterexample: a write-transaction in which the held scope raises
`ValueError "boom"` re-raises a fresh `WeatherDataError` wrapping the
message, not the original error object — the original error is not what the
caller receives. -/
theorem claim_c2_counterexample :
    (runWriter ⟨[], [], none⟩ [.fail (.valueError "boom")]).2 ≠
        some (.valueError "boom") ∧
      (runWriter ⟨[], [], none⟩ [.fail (.valueError "boom")]).2 =
        some (.weatherDataError "Yikes!!! Error adding entry: boom") := by
  constructor <;> decide

/-- C2 amended: for every write-transaction, after it returns the backup
file no longer exists; and if it failed, the archive is restored
byte-identical to its pre-transaction state and the error surfaced to the
caller is a `WeatherDataError` wrapping the original error's message (not
the original error itself). -/
theorem claim_c2_writer_rollback (s : ArchiveState) (script : List TxStep) :
    (runWriter s script).1.backup = none ∧
      ∀ e, (runWriter s script).2 = some e →
        (runWriter s script).1.archive = s.archive ∧
        ∃ e0, e = .weatherDataError
          ("Yikes!!! Error adding entry: " ++ pyStr e0) := by
  refine ⟨runWriter_backup_none s script, fun e he => ?_⟩
  obtain ⟨ha, e0, he0⟩ := runWriter_error_restores s script e he
  exact ⟨ha, e0, he0⟩

/-- Witness for the amended C2: a transaction on a one-entry store that
writes an already-existing path fails, restores the archive and leaves no
backup. -/
theorem claim_c2_witness :
    (runWriter ⟨[⟨"k", "v"⟩], ["k"], none⟩ [.write "k" "w"]).1.backup = none ∧
      ((runWriter ⟨[⟨"k", "v"⟩], ["k"], none⟩ [.write "k" "w"]).1.archive =
          (⟨[⟨"k", "v"⟩], ["k"], none⟩ : ArchiveState).archive ∧
        ∃ e0, PyError.weatherDataError
            "Yikes!!! Error adding entry: 'k' already exists..." =
          .weatherDataError ("Yikes!!! Error adding entry: " ++ pyStr e0)) :=
  ⟨(claim_c2_writer_rollback ⟨[⟨"k", "v"⟩], ["k"], none⟩ [.write "k" "w"]).1,
    (claim_c2_writer_rollback ⟨[⟨"k", "v"⟩], ["k"], none⟩ [.write "k" "w"]).2
      (.weatherDataError "Yikes!!! Error adding entry: 'k' already exists...")
      (by decide)⟩

/-- C3 evaluated at the failing input: opening an archive whose member list
repeats a name completes without error (the duplicate-name
`WeatherDataError` raised by the scan is swallowed by the
`except err.WeatherDataError: pass` clause), with only the first occurrence
in the member set — the claimed `CorruptArchiveError` never reaches the
caller. -/
theorem claim_c3_duplicate_open_swallowed :
    initExistingArchive ["a/a-20200101.json", "a/a-20200101.json"] =
      .ok ["a/a-20200101.json"] := by
  rfl

/-- C9: after a transaction that wrote key `k` and then failed, the archive
is rolled back so `exists(k)` is false, yet the in-memory member set kept
`k`, so a later transaction on the same instance that writes `k` fails with
the (wrapped) duplicate-entry error. -/
theorem claim_c9_member_set_survives_rollback (s : ArchiveState)
    (k c c2 : String) (e : PyError)
    (hmem : k ∉ s.members) (hdisk : dataPathExists s k = false) :
    (runWriter s [.write k c, .fail e]).2.isSome = true ∧
      dataPathExists (runWriter s [.write k c, .fail e]).1 k = false ∧
      (runWriter (runWriter s [.write k c, .fail e]).1 [.write k c2]).2 =
        some (.weatherDataError ("Yikes!!! Error adding entry: " ++
          ("'" ++ k ++ "' already exists..."))) := by
  have h1 : runWriter s [.write k c, .fail e] =
      (⟨s.archive, s.members ++ [k], none⟩,
        some (wrapWriterError e)) := by
    simp only [runWriter, runSteps]
    rw [if_neg (by exact hmem)]
  refine ⟨by rw [h1]; rfl, by rw [h1]; exact hdisk, ?_⟩
  rw [h1]
  simp only [runWriter, runSteps]
  rw [if_pos (by simp)]
  rfl

/-- Witness for C9 on an initially empty store. -/
theorem claim_c9_witness :
    ("k" ∉ (⟨[], [], none⟩ : ArchiveState).members) ∧
      dataPathExists ⟨[], [], none⟩ "k" = false ∧
      ((runWriter ⟨[], [], none⟩ [.write "k" "v", .fail (.otherError "io")]).2.isSome = true ∧
        dataPathExists
          (runWriter ⟨[], [], none⟩ [.write "k" "v", .fail (.otherError "io")]).1 "k" = false ∧
        (runWriter
            (runWriter ⟨[], [], none⟩ [.write "k" "v", .fail (.otherError "io")]).1
            [.write "k" "w"]).2 =
          some (.weatherDataError ("Yikes!!! Error adding entry: " ++
            ("'" ++ "k" ++ "' already exists...")))) :=
  ⟨by decide, by decide,
    claim_c9_member_set_survives_rollback ⟨[], [], none⟩ "k" "v" "w"
      (.otherError "io") (by decide) (by decide)⟩

theorem buildAddScript_pre (aliasName : String) (cb : Date → Option PyError)
    (pv : Date → ProviderResponse) (pay : Date → String) (cal : Date → Nat) :
    ∀ pre : List Date, (∀ x ∈ pre, cb x = none) →
    (∀ x ∈ pre, pv x = .recorded (pay x) (cal x)) →
    (∀ x ∈ pre, cal x ≤ API_USAGE_LIMIT) →
    ∀ tail, buildAddScript aliasName cb pv (pre ++ tail) =
      pre.map (fun x => TxStep.write (makePathname aliasName x) (pay x)) ++
        buildAddScript aliasName cb pv tail := by
  intro pre
  induction pre with
  | nil => intro _ _ _ tail; simp
  | cons x rest ih =>
      intro hcb hpv hcal tail
      have hx : buildAddScript aliasName cb pv (x :: (rest ++ tail)) =
          TxStep.write (makePathname aliasName x) (pay x) ::
            buildAddScript aliasName cb pv (rest ++ tail) := by
        conv_lhs => rw [buildAddScript.eq_def]
        dsimp only
        rw [hcb x (by simp), hpv x (by simp)]
        dsimp only
        rw [if_neg (by have := hcal x (by simp); omega)]
      rw [List.cons_append, hx,
        ih (fun y hy => hcb y (by simp [hy])) (fun y hy => hpv y (by simp [hy]))
          (fun y hy => hcal y (by simp [hy])) tail]
      simp

theorem add_rollback_on_callback_error (s : ArchiveState) (aliasName : String)
    (pre : List Date) (d : Date) (rest : List Date)
    (cb : Date → Option PyError) (pv : Date → ProviderResponse)
    (pay : Date → String) (cal : Date → Nat) (e : PyError)
    (hcb : ∀ x ∈ pre, cb x = none)
    (hpv : ∀ x ∈ pre, pv x = .recorded (pay x) (cal x))
    (hcal : ∀ x ∈ pre, cal x ≤ API_USAGE_LIMIT)
    (hd : cb d = some e) :
    (weatherHistoryAdd s aliasName (pre ++ d :: rest) cb pv).2.isSome = true ∧
      (weatherHistoryAdd s aliasName (pre ++ d :: rest) cb pv).1.archive =
        s.archive := by
  have hscript : buildAddScript aliasName cb pv (pre ++ d :: rest) =
      pre.map (fun x => TxStep.write (makePathname aliasName x) (pay x)) ++
        [TxStep.fail e] := by
    rw [buildAddScript_pre aliasName cb pv pay cal pre hcb hpv hcal (d :: rest)]
    congr 1
    unfold buildAddScript
    rw [hd]
  unfold weatherHistoryAdd
  rw [hscript]
  have hres := runWriter_of_runSteps_some s
    (pre.map (fun x => TxStep.write (makePathname aliasName x) (pay x)) ++
      [TxStep.fail e])
    (runSteps_fail_tail_isSome _ e _)
  exact ⟨hres.2, hres.1⟩

theorem add_commit_on_provider_error (s : ArchiveState) (aliasName : String)
    (pre : List Date) (d : Date) (rest : List Date)
    (cb : Date → Option PyError) (pv : Date → ProviderResponse)
    (pay : Date → String) (cal : Date → Nat) (msg : String)
    (hcb : ∀ x ∈ pre, cb x = none)
    (hpv : ∀ x ∈ pre, pv x = .recorded (pay x) (cal x))
    (hcal : ∀ x ∈ pre, cal x ≤ API_USAGE_LIMIT)
    (hfresh : ∀ x ∈ pre, makePathname aliasName x ∉ s.members)
    (hnodup : (pre.map (makePathname aliasName)).Nodup)
    (hd : cb d = none) (hderr : pv d = .error msg) :
    (weatherHistoryAdd s aliasName (pre ++ d :: rest) cb pv).2 = none ∧
      (weatherHistoryAdd s aliasName (pre ++ d :: rest) cb pv).1.archive =
        s.archive ++
          pre.map (fun x => ⟨makePathname aliasName x, pay x⟩) := by
  have h0 : buildAddScript aliasName cb pv (d :: rest) = [] := by
    unfold buildAddScript
    rw [hd, hderr]
  have hscript : buildAddScript aliasName cb pv (pre ++ d :: rest) =
      (pre.map (fun x => (makePathname aliasName x, pay x))).map
        (fun pc => TxStep.write pc.1 pc.2) := by
    rw [buildAddScript_pre aliasName cb pv pay cal pre hcb hpv hcal (d :: rest),
      h0, List.append_nil, List.map_map]
    rfl
  have hf : ∀ p ∈ ((pre.map fun x => (makePathname aliasName x, pay x)).map
      Prod.fst), p ∉ ({ s with backup := some s.archive } : ArchiveState).members := by
    intro p hp
    rw [List.map_map] at hp
    obtain ⟨x, hx, rfl⟩ := List.mem_map.mp hp
    exact hfresh x hx
  have hn : ((pre.map fun x => (makePathname aliasName x, pay x)).map
      Prod.fst).Nodup := by
    rw [List.map_map]
    exact hnodup
  have hrs := runSteps_writes_ok
    (pre.map fun x => (makePathname aliasName x, pay x))
    { s with backup := some s.archive } hf hn
  simp only [weatherHistoryAdd, runWriter]
  rw [hscript, hrs]
  dsimp only
  refine ⟨rfl, ?_⟩
  rw [List.map_map]
  rfl

/-- C1 counterexample: on an empty store, a two-date batch whose `on_each`
callback raises at the second date ends with an error and with the first
date's already-written payload rolled back — it is not durably persisted, so
`add` cannot be using one write-transaction per date. -/
theorem claim_c1_counterexample :
    (weatherHistoryAdd ⟨[], [], none⟩ "a" [⟨2020, 1, 1⟩, ⟨2020, 1, 2⟩]
        (fun x => if x = ⟨2020, 1, 2⟩ then some (.otherError "stop") else none)
        (fun _ => .recorded "p" 0)).2.isSome = true ∧
      dataPathExists
        (weatherHistoryAdd ⟨[], [], none⟩ "a" [⟨2020, 1, 1⟩, ⟨2020, 1, 2⟩]
          (fun x => if x = ⟨2020, 1, 2⟩ then some (.otherError "stop") else none)
          (fun _ => .recorded "p" 0)).1
        (makePathname "a" ⟨2020, 1, 1⟩) = false := by
  constructor <;> decide

/-- C1 amended: `add` runs the whole batch inside one write-transaction.
If the `on_each` callback raises after N dates have been fetched and
written, the transaction rolls back and none of those N dates survive in the
archive; previously written dates stay durable only when the provider
signals an error through its response (a non-raising break), in which case
the transaction commits with every date written before the break. -/
theorem claim_c1_batch_transaction :
    (∀ (s : ArchiveState) (aliasName : String) (pre : List Date) (d : Date)
        (rest : List Date) (cb : Date → Option PyError)
        (pv : Date → ProviderResponse) (pay : Date → String)
        (cal : Date → Nat) (e : PyError),
      (∀ x ∈ pre, cb x = none) →
      (∀ x ∈ pre, pv x = .recorded (pay x) (cal x)) →
      (∀ x ∈ pre, cal x ≤ API_USAGE_LIMIT) →
      cb d = some e →
      (weatherHistoryAdd s aliasName (pre ++ d :: rest) cb pv).2.isSome = true ∧
        (weatherHistoryAdd s aliasName (pre ++ d :: rest) cb pv).1.archive =
          s.archive) ∧
    (∀ (s : ArchiveState) (aliasName : String) (pre : List Date) (d : Date)
        (rest : List Date) (cb : Date → Option PyError)
        (pv : Date → ProviderResponse) (pay : Date → String)
        (cal : Date → Nat) (msg : String),
      (∀ x ∈ pre, cb x = none) →
      (∀ x ∈ pre, pv x = .recorded (pay x) (cal x)) →
      (∀ x ∈ pre, cal x ≤ API_USAGE_LIMIT) →
      (∀ x ∈ pre, makePathname aliasName x ∉ s.members) →
      (pre.map (makePathname aliasName)).Nodup →
      cb d = none → pv d = .error msg →
      (weatherHistoryAdd s aliasName (pre ++ d :: rest) cb pv).2 = none ∧
        (weatherHistoryAdd s aliasName (pre ++ d :: rest) cb pv).1.archive =
          s.archive ++
            pre.map (fun x => ⟨makePathname aliasName x, pay x⟩)) :=
  ⟨fun s aliasName pre d rest cb pv pay cal e hcb hpv hcal hd =>
      add_rollback_on_callback_error s aliasName pre d rest cb pv pay cal e
        hcb hpv hcal hd,
    fun s aliasName pre d rest cb pv pay cal msg hcb hpv hcal hfresh hnodup
        hd hderr =>
      add_commit_on_provider_error s aliasName pre d rest cb pv pay cal msg
        hcb hpv hcal hfresh hnodup hd hderr⟩

/-- Witness for the amended C1: a raising callback at the second date rolls
back the first date's write, while a provider error response at the second
date commits the first date's write. -/
theorem claim_c1_witness :
    ((weatherHistoryAdd ⟨[], [], none⟩ "a" [⟨2020, 1, 1⟩, ⟨2020, 1, 2⟩]
        (fun x => if x = ⟨2020, 1, 2⟩ then some (.otherError "stop") else none)
        (fun _ => .recorded "p" 0)).2.isSome = true ∧
      (weatherHistoryAdd ⟨[], [], none⟩ "a" [⟨2020, 1, 1⟩, ⟨2020, 1, 2⟩]
        (fun x => if x = ⟨2020, 1, 2⟩ then some (.otherError "stop") else none)
        (fun _ => .recorded "p" 0)).1.archive =
          (⟨[], [], none⟩ : ArchiveState).archive) ∧
    ((weatherHistoryAdd ⟨[], [], none⟩ "a" [⟨2020, 1, 1⟩, ⟨2020, 1, 2⟩]
        (fun _ => none)
        (fun x => if x = ⟨2020, 1, 2⟩ then .error "quota"
          else .recorded "p" 0)).2 = none ∧
      (weatherHistoryAdd ⟨[], [], none⟩ "a" [⟨2020, 1, 1⟩, ⟨2020, 1, 2⟩]
        (fun _ => none)
        (fun x => if x = ⟨2020, 1, 2⟩ then .error "quota"
          else .recorded "p" 0)).1.archive =
          (⟨[], [], none⟩ : ArchiveState).archive ++
            [⟨2020, 1, 1⟩].map
              (fun x => ⟨makePathname "a" x, (fun _ : Date => "p") x⟩)) :=
  ⟨claim_c1_batch_transaction.1 ⟨[], [], none⟩ "a" [⟨2020, 1, 1⟩] ⟨2020, 1, 2⟩
      []
      (fun x => if x = ⟨2020, 1, 2⟩ then some (.otherError "stop") else none)
      (fun _ => .recorded "p" 0) (fun _ => "p") (fun _ => 0)
      (.otherError "stop")
      (by decide) (by decide) (by decide) (by decide),
    claim_c1_batch_transaction.2 ⟨[], [], none⟩ "a" [⟨2020, 1, 1⟩] ⟨2020, 1, 2⟩
      [] (fun _ => none)
      (fun x => if x = ⟨2020, 1, 2⟩ then .error "quota" else .recorded "p" 0)
      (fun _ => "p") (fun _ => 0) "quota"
      (by decide) (by decide) (by decide) (by decide) (by decide)
      (by decide) (by decide)⟩

/-! ## Proofs about the season aligner -/

theorem neutralRanges_ok : ∀ l : List LDR, (∀ x ∈ l, x.range.valid) →
    neutralRanges l = .ok (l.map fun x => neutralOf x.range) := by
  intro l
  induction l with
  | nil => intro _; rfl
  | cons x rest ih =>
      intro h
      rw [neutralRanges.eq_def]
      dsimp only
      rw [neutral_eval x.range (h x (by simp)),
        ih (fun y hy => h y (by simp [hy]))]
      rfl

theorem zip_map_self (g : LDR → DateRange) (l : List LDR) :
    l.zip (l.map g) = l.map (fun x => (x, g x)) := by
  induction l with
  | nil => rfl
  | cons x rest ih => simp [ih]

theorem markSlots_foldl (pairs : List (LDR × DateRange)) :
    ∀ (init : Nat → List LDR) (m : Nat),
      (pairs.foldl markStep init) m =
        init m ++ (pairs.filter (fun p =>
          decide (p.2.low.month ≤ m ∧
            m ≤ p.2.high.month +
              (if p.1.range.spansYears then 12 else 0)))).map Prod.fst := by
  induction pairs with
  | nil => intro init m; simp
  | cons p rest ih =>
      intro init m
      rw [List.foldl_cons, ih]
      by_cases hc : p.2.low.month ≤ m ∧
          m ≤ p.2.high.month + (if p.1.range.spansYears then 12 else 0)
      · have hstep : markStep init p m = init m ++ [p.1] := by
          unfold markStep
          rw [if_pos hc]
        rw [hstep, List.filter_cons]
        simp only [decide_eq_true_eq]
        rw [if_pos hc]
        simp
      · have hstep : markStep init p m = init m := by
          unfold markStep
          rw [if_neg hc]
        rw [hstep, List.filter_cons]
        simp only [decide_eq_true_eq]
        rw [if_neg hc]

theorem markSlots_apply (g : LDR → DateRange) (l : List LDR) (m : Nat) :
    markSlots (l.zip (l.map g)) m =
      l.filter (fun x =>
        decide ((g x).low.month ≤ m ∧
          m ≤ (g x).high.month +
            (if x.range.spansYears then 12 else 0))) := by
  rw [zip_map_self]
  unfold markSlots
  rw [markSlots_foldl]
  rw [List.nil_append, List.filter_map, List.map_map]
  have h1 : (Prod.fst ∘ fun x : LDR => (x, g x)) = id := rfl
  rw [h1, List.map_id]
  apply List.filter_congr
  intro x _
  rfl

theorem reconcile_aux (n : Nat) (slots : Nat → List LDR)
    (h0 : slots 0 = []) :
    ∀ j, j ≤ 13 → ∀ m,
      ((List.range j).foldl (reconcileStep n) slots) m =
        if 1 ≤ m ∧ m < j then
          (if slots m ≠ [] ∧ (slots m).length ≠ n ∧ slots (m + 12) ≠ [] then
            (slots m).filter (fun ldr => decide ldr.range.spansYears)
           else slots m)
        else if 13 ≤ m ∧ m < j + 12 then
          (if slots (m - 12) ≠ [] ∧ (slots (m - 12)).length ≠ n ∧
              slots m ≠ [] then
            slots m ++ (slots (m - 12)).filter
              (fun ldr => decide (¬ ldr.range.spansYears))
           else slots m)
        else slots m := by
  intro j
  induction j with
  | zero =>
      intro _ m
      rw [List.range_zero, List.foldl_nil, if_neg (by omega), if_neg (by omega)]
  | succ j ihj =>
      intro hj m
      rw [List.range_succ, List.foldl_append, List.foldl_cons, List.foldl_nil]
      have hFj := ihj (by omega)
      have hj1 : ((List.range j).foldl (reconcileStep n) slots) j = slots j := by
        rw [hFj j, if_neg (by omega), if_neg (by omega)]
      have hj2 : ((List.range j).foldl (reconcileStep n) slots) (j + 12) =
          slots (j + 12) := by
        rw [hFj (j + 12), if_neg (by omega), if_neg (by omega)]
      set F := (List.range j).foldl (reconcileStep n) slots with hFdef
      have happly : reconcileStep n F j =
          if slots j ≠ [] ∧ (slots j).length ≠ n then
            if slots (j + 12) ≠ [] then
              fun m =>
                if m = j + 12 then
                  F m ++ (slots j).filter
                    (fun ldr => decide (¬ ldr.range.spansYears))
                else if m = j then
                  (slots j).filter (fun ldr => decide ldr.range.spansYears)
                else F m
            else F
          else F := by
        unfold reconcileStep
        rw [hj1, hj2]
      rw [happly]
      by_cases hcond : slots j ≠ [] ∧ (slots j).length ≠ n
      · have hjpos : 1 ≤ j := by
          rcases Nat.eq_zero_or_pos j with rfl | hp
          · exact absurd h0 hcond.1
          · exact hp
        rw [if_pos hcond]
        by_cases hnext : slots (j + 12) ≠ []
        · rw [if_pos hnext]
          by_cases hm12 : m = j + 12
          · subst hm12
            rw [if_pos rfl, hj2]
            rw [if_neg (by omega),
              if_pos (by omega : 13 ≤ j + 12 ∧ j + 12 < j + 1 + 12),
              Nat.add_sub_cancel, if_pos ⟨hcond.1, hcond.2, hnext⟩]
          · rw [if_neg hm12]
            by_cases hmj : m = j
            · rw [hmj, if_pos rfl,
                if_pos (by omega : 1 ≤ j ∧ j < j + 1),
                if_pos ⟨hcond.1, hcond.2, hnext⟩]
            · rw [if_neg hmj, hFj m]
              split_ifs <;> first | rfl | omega
        · rw [if_neg hnext]
          by_cases hm12 : m = j + 12
          · subst hm12
            rw [hj2]
            rw [if_neg (by omega),
              if_pos (by omega : 13 ≤ j + 12 ∧ j + 12 < j + 1 + 12),
              Nat.add_sub_cancel,
              if_neg (fun hx => hnext hx.2.2)]
          · by_cases hmj : m = j
            · rw [hmj, hj1,
                if_pos (by omega : 1 ≤ j ∧ j < j + 1),
                if_neg (fun hx => hnext hx.2.2)]
            · rw [hFj m]
              split_ifs <;> first | rfl | omega
      · rw [if_neg hcond]
        by_cases hm12 : m = j + 12
        · subst hm12
          rw [hj2]
          rcases Nat.eq_zero_or_pos j with rfl | hjp
          · rw [if_neg (by omega), if_neg (by omega)]
          · rw [if_neg (by omega),
              if_pos (by omega : 13 ≤ j + 12 ∧ j + 12 < j + 1 + 12),
              Nat.add_sub_cancel,
              if_neg (fun hx => hcond ⟨hx.1, hx.2.1⟩)]
        · by_cases hmj : m = j
          · rw [hmj, hj1]
            rcases Nat.eq_zero_or_pos j with rfl | hjp
            · rw [if_neg (by omega), if_neg (by omega)]
            · rw [if_pos (by omega : 1 ≤ j ∧ j < j + 1),
                if_neg (fun hx => hcond ⟨hx.1, hx.2.1⟩)]
          · rw [hFj m]
            split_ifs <;> first | rfl | omega

theorem reconcile_apply (n : Nat) (slots : Nat → List LDR)
    (h0 : slots 0 = []) (m : Nat) :
    reconcile n slots m =
      if 1 ≤ m ∧ m < 13 then
        (if slots m ≠ [] ∧ (slots m).length ≠ n ∧ slots (m + 12) ≠ [] then
          (slots m).filter (fun ldr => decide ldr.range.spansYears)
         else slots m)
      else if 13 ≤ m ∧ m < 25 then
        (if slots (m - 12) ≠ [] ∧ (slots (m - 12)).length ≠ n ∧
            slots m ≠ [] then
          slots m ++ (slots (m - 12)).filter
            (fun ldr => decide (¬ ldr.range.spansYears))
         else slots m)
      else slots m := by
  have haux := reconcile_aux n slots h0 13 (Nat.le_refl 13) m
  have h25 : (13 : Nat) + 12 = 25 := rfl
  rw [h25] at haux
  exact haux

theorem eqLDR_refl (x : LDR) : eqLDR x x = true := by
  simp [eqLDR]

theorem eqLDR_spans_mismatch (x y : LDR) (hx : ¬ x.range.spansYears)
    (hy : y.range.spansYears) : eqLDR x y = false := by
  unfold eqLDR
  by_contra hcon
  rw [Bool.not_eq_false, Bool.and_eq_true, Bool.and_eq_true] at hcon
  obtain ⟨⟨_, hlow⟩, hhigh⟩ := hcon
  rw [beq_iff_eq] at hlow hhigh
  apply hx
  unfold DateRange.spansYears at hy ⊢
  rw [hlow, hhigh]
  exact hy

theorem aligner_slots0 (pre post : List LDR) (a : LDR)
    (ha1 : a.range.low.month = 1) (ha3 : a.range.high.month = 3)
    (hans : ¬ a.range.spansYears)
    (hB : ∀ b ∈ pre ++ post, b.range.low.month = 10 ∧
      b.range.high.month = 4 ∧ b.range.spansYears) :
    ∀ m, markSlots ((pre ++ a :: post).zip
        ((pre ++ a :: post).map fun x => neutralOf x.range)) m =
      (if 1 ≤ m ∧ m ≤ 3 then [a]
       else if 10 ≤ m ∧ m ≤ 16 then pre ++ post else []) := by
  intro m
  have hpb : ∀ L : List LDR, (∀ b ∈ L, b ∈ pre ++ post) →
      L.filter (fun x => decide ((neutralOf x.range).low.month ≤ m ∧
        m ≤ (neutralOf x.range).high.month +
          (if x.range.spansYears then 12 else 0))) =
        (if 10 ≤ m ∧ m ≤ 16 then L else []) := by
    intro L hL
    by_cases hm : 10 ≤ m ∧ m ≤ 16
    · rw [if_pos hm]
      apply List.filter_eq_self.mpr
      intro b hb
      obtain ⟨h10, h4, hsp⟩ := hB b (hL b hb)
      rw [show (neutralOf b.range).low.month = b.range.low.month from rfl,
        show (neutralOf b.range).high.month = b.range.high.month from rfl,
        h10, h4, if_pos hsp]
      exact decide_eq_true (by omega)
    · rw [if_neg hm]
      apply List.filter_eq_nil_iff.mpr
      intro b hb
      obtain ⟨h10, h4, hsp⟩ := hB b (hL b hb)
      rw [show (neutralOf b.range).low.month = b.range.low.month from rfl,
        show (neutralOf b.range).high.month = b.range.high.month from rfl,
        h10, h4, if_pos hsp]
      simp only [decide_eq_true_eq]
      omega
  rw [markSlots_apply, List.filter_append, List.filter_cons]
  simp only [decide_eq_true_eq]
  rw [show (neutralOf a.range).low.month = a.range.low.month from rfl,
    show (neutralOf a.range).high.month = a.range.high.month from rfl,
    ha1, ha3, if_neg hans]
  rw [hpb pre (fun b hb => List.mem_append.mpr (Or.inl hb)),
    hpb post (fun b hb => List.mem_append.mpr (Or.inr hb))]
  by_cases hm1 : 1 ≤ m ∧ m ≤ 3
  · rw [if_pos (by omega : 1 ≤ m ∧ m ≤ 3 + 0), if_pos hm1,
      if_neg (by omega : ¬ (10 ≤ m ∧ m ≤ 16)),
      if_neg (by omega : ¬ (10 ≤ m ∧ m ≤ 16))]
    rfl
  · rw [if_neg (by omega : ¬ (1 ≤ m ∧ m ≤ 3 + 0)), if_neg hm1]
    by_cases hm2 : 10 ≤ m ∧ m ≤ 16
    · rw [if_pos hm2, if_pos hm2, if_pos hm2]
    · rw [if_neg hm2, if_neg hm2, if_neg hm2]
      rfl

theorem aligner_slots1 (pre post : List LDR) (a : LDR)
    (ha1 : a.range.low.month = 1) (ha3 : a.range.high.month = 3)
    (hans : ¬ a.range.spansYears)
    (hB : ∀ b ∈ pre ++ post, b.range.low.month = 10 ∧
      b.range.high.month = 4 ∧ b.range.spansYears)
    (hne : pre ++ post ≠ []) :
    ∀ m, reconcile (pre ++ a :: post).length
        (markSlots ((pre ++ a :: post).zip
          ((pre ++ a :: post).map fun x => neutralOf x.range))) m =
      (if 10 ≤ m ∧ m ≤ 12 then pre ++ post
       else if 13 ≤ m ∧ m ≤ 15 then (pre ++ post) ++ [a]
       else if m = 16 then pre ++ post else []) := by
  have hS := aligner_slots0 pre post a ha1 ha3 hans hB
  have hn0 : markSlots ((pre ++ a :: post).zip
      ((pre ++ a :: post).map fun x => neutralOf x.range)) 0 = [] := by
    rw [hS 0, if_neg (by omega), if_neg (by omega)]
  have hane : ([a] : List LDR) ≠ [] := by simp
  have haLen : ([a] : List LDR).length ≠ (pre ++ a :: post).length := by
    have hp := List.length_pos.mpr hne
    simp only [List.length_append, List.length_cons, List.length_nil] at hp ⊢
    omega
  have hfa : ([a] : List LDR).filter
      (fun ldr => decide ldr.range.spansYears) = [] := by
    simp [hans]
  have hfa2 : ([a] : List LDR).filter
      (fun ldr => decide (¬ ldr.range.spansYears)) = [a] := by
    simp [hans]
  intro m
  rw [reconcile_apply _ _ hn0 m]
  by_cases c1 : 1 ≤ m ∧ m ≤ 3
  · rw [if_pos (by omega : 1 ≤ m ∧ m < 13)]
    rw [hS m, hS (m + 12)]
    rw [if_pos c1]
    rw [if_neg (by omega : ¬ (1 ≤ m + 12 ∧ m + 12 ≤ 3)),
      if_pos (by omega : 10 ≤ m + 12 ∧ m + 12 ≤ 16)]
    rw [if_pos ⟨hane, haLen, hne⟩, hfa]
    rw [if_neg (by omega : ¬ (10 ≤ m ∧ m ≤ 12)),
      if_neg (by omega : ¬ (13 ≤ m ∧ m ≤ 15)),
      if_neg (by omega : ¬ m = 16)]
  · by_cases c2 : 10 ≤ m ∧ m ≤ 12
    · rw [if_pos (by omega : 1 ≤ m ∧ m < 13)]
      rw [hS m, hS (m + 12)]
      rw [if_neg c1, if_pos (by omega : 10 ≤ m ∧ m ≤ 16)]
      rw [if_neg (by omega : ¬ (1 ≤ m + 12 ∧ m + 12 ≤ 3)),
        if_neg (by omega : ¬ (10 ≤ m + 12 ∧ m + 12 ≤ 16))]
      rw [if_neg (fun hx => hx.2.2 rfl)]
      rw [if_pos c2]
    · by_cases c3 : 13 ≤ m ∧ m ≤ 15
      · rw [if_neg (by omega : ¬ (1 ≤ m ∧ m < 13)),
          if_pos (by omega : 13 ≤ m ∧ m < 25)]
        rw [hS m, hS (m - 12)]
        rw [if_neg c1, if_pos (by omega : 10 ≤ m ∧ m ≤ 16)]
        rw [if_pos (by omega : 1 ≤ m - 12 ∧ m - 12 ≤ 3)]
        rw [if_pos ⟨hane, haLen, hne⟩, hfa2]
        rw [if_neg c2, if_pos c3]
      · by_cases c4 : m = 16
        · subst c4
          rw [if_neg (by omega : ¬ (1 ≤ (16 : Nat) ∧ 16 < 13)),
            if_pos (by omega : 13 ≤ (16 : Nat) ∧ 16 < 25)]
          rw [hS 16, hS (16 - 12)]
          rw [if_neg (by omega : ¬ (1 ≤ (16 : Nat) ∧ 16 ≤ 3)),
            if_pos (by omega : 10 ≤ (16 : Nat) ∧ 16 ≤ 16)]
          rw [if_neg (by omega : ¬ (1 ≤ (16 : Nat) - 12 ∧ 16 - 12 ≤ 3)),
            if_neg (by omega : ¬ (10 ≤ (16 : Nat) - 12 ∧ 16 - 12 ≤ 16))]
          rw [if_neg (fun hx => hx.1 rfl)]
          rw [if_neg (by omega : ¬ (10 ≤ (16 : Nat) ∧ 16 ≤ 12)),
            if_neg (by omega : ¬ (13 ≤ (16 : Nat) ∧ 16 ≤ 15)),
            if_pos rfl]
        · by_cases c5 : 17 ≤ m ∧ m ≤ 24
          · rw [if_neg (by omega : ¬ (1 ≤ m ∧ m < 13)),
              if_pos (by omega : 13 ≤ m ∧ m < 25)]
            rw [hS m]
            rw [if_neg c1, if_neg (by omega : ¬ (10 ≤ m ∧ m ≤ 16))]
            rw [if_neg (fun hx => hx.2.2 rfl)]
            rw [if_neg c2, if_neg c3, if_neg c4]
          · by_cases c6 : 4 ≤ m ∧ m ≤ 9
            · rw [if_pos (by omega : 1 ≤ m ∧ m < 13)]
              rw [hS m]
              rw [if_neg c1, if_neg (by omega : ¬ (10 ≤ m ∧ m ≤ 16))]
              rw [if_neg (fun hx => hx.1 rfl)]
              rw [if_neg c2, if_neg c3, if_neg c4]
            · rw [if_neg (by omega : ¬ (1 ≤ m ∧ m < 13)),
                if_neg (by omega : ¬ (13 ≤ m ∧ m < 25))]
              rw [hS m]
              rw [if_neg c1, if_neg (by omega : ¬ (10 ≤ m ∧ m ≤ 16))]
              rw [if_neg c2, if_neg c3, if_neg c4]

theorem getHistoryDateMapping_unfold (l : List LDR) (h1 : l.length ≠ 0)
    (h2 : ∀ x ∈ l, x.range.valid) :
    getHistoryDateMapping l =
      (if 1 < (intersectingMonths (fun idx => decide
          ((reconcile l.length (markSlots (l.zip
            (l.map fun x => neutralOf x.range)))) idx ≠ []))).length
       then pure []
       else
        match intersectingMonths (fun idx => decide
            ((reconcile l.length (markSlots (l.zip
              (l.map fun x => neutralOf x.range)))) idx ≠ [])) with
        | [] => .error (.indexError "list index out of range")
        | (startM, endM) :: _ =>
            pure (l.map fun ldr => (ldr.name, ldr.range,
              monthSlotMap (reconcile l.length (markSlots (l.zip
                (l.map fun x => neutralOf x.range)))) startM endM ldr))) := by
  unfold getHistoryDateMapping
  rw [if_neg h1, neutralRanges_ok l h2]
  simp only [bind, Except.bind]

/-- C4 counterexample: one entity covering Jan-Mar 2021 and one covering
Oct 2020 - Apr 2021; alignment succeeds, but the Oct-Apr entity's returned
month-slot map has a mark at slot 10 (October of the first synthetic year),
which is not a Jan..Mar slot — so the common window is not narrowed to
[Jan, Mar]. -/
theorem claim_c4_counterexample :
    (getHistoryDateMapping
        [⟨"a", ⟨⟨2021, 1, 1⟩, ⟨2021, 3, 31⟩⟩⟩,
         ⟨"b", ⟨⟨2020, 10, 1⟩, ⟨2021, 4, 30⟩⟩⟩]).map
      (fun ms => ms.any (fun t => t.2.2.getD 10 false)) = .ok true := by
  rfl

/-- C4 amended: with one entity covering Jan-Mar of a single year and every
other entity spanning Oct-Apr across a year boundary (at least one such),
alignment succeeds with the single window Oct..Apr (slots 10..16): every
entity's returned map has marks inside slots 10..16, where the Jan-Mar
entity occupies exactly the Jan..Mar slots of the second synthetic year
(13..15) and each Oct-Apr entity occupies all of 10..16.  The window is not
narrowed to [Jan, Mar]. -/
theorem claim_c4_amended (pre post : List LDR) (a : LDR)
    (hav : a.range.valid) (ha1 : a.range.low.month = 1)
    (ha3 : a.range.high.month = 3) (hans : ¬ a.range.spansYears)
    (hB : ∀ b ∈ pre ++ post, b.range.valid ∧ b.range.low.month = 10 ∧
      b.range.high.month = 4 ∧ b.range.spansYears)
    (hne : pre ++ post ≠ []) :
    getHistoryDateMapping (pre ++ a :: post) =
      .ok ((pre ++ a :: post).map (fun ldr => (ldr.name, ldr.range,
        (List.range 25).map (fun slot =>
          decide (10 ≤ slot ∧ slot ≤ 16) &&
            (if ldr.range.spansYears then true
             else decide (13 ≤ slot ∧ slot ≤ 15)))))) := by
  have hB2 : ∀ b ∈ pre ++ post, b.range.low.month = 10 ∧
      b.range.high.month = 4 ∧ b.range.spansYears := fun b hb => (hB b hb).2
  have hlen0 : (pre ++ a :: post).length ≠ 0 := by simp
  have hvalid : ∀ x ∈ pre ++ a :: post, x.range.valid := by
    intro x hx
    rcases List.mem_append.mp hx with hxp | hxc
    · exact (hB x (List.mem_append.mpr (Or.inl hxp))).1
    · rcases List.mem_cons.mp hxc with rfl | hxq
      · exact hav
      · exact (hB x (List.mem_append.mpr (Or.inr hxq))).1
  have hT := aligner_slots1 pre post a ha1 ha3 hans hB2 hne
  have hocc : (fun idx => decide ((reconcile (pre ++ a :: post).length
      (markSlots ((pre ++ a :: post).zip
        ((pre ++ a :: post).map fun x => neutralOf x.range)))) idx ≠ [])) =
      (fun idx => decide (10 ≤ idx ∧ idx ≤ 16)) := by
    funext idx
    rw [hT idx, decide_eq_decide]
    by_cases d1 : 10 ≤ idx ∧ idx ≤ 12
    · rw [if_pos d1]
      exact iff_of_true hne (by omega)
    · by_cases d2 : 13 ≤ idx ∧ idx ≤ 15
      · rw [if_neg d1, if_pos d2]
        exact iff_of_true (by simp) (by omega)
      · by_cases d3 : idx = 16
        · rw [if_neg d1, if_neg d2, if_pos d3]
          exact iff_of_true hne (by omega)
        · rw [if_neg d1, if_neg d2, if_neg d3]
          exact iff_of_false (by simp) (by omega)
  have hruns : intersectingMonths (fun idx => decide (10 ≤ idx ∧ idx ≤ 16)) =
      [(10, 16)] := by decide
  have hpoint : ∀ ldr ∈ pre ++ a :: post,
      (ldr.name, ldr.range, monthSlotMap
          (reconcile (pre ++ a :: post).length (markSlots
            ((pre ++ a :: post).zip
              ((pre ++ a :: post).map fun x => neutralOf x.range)))) 10 16 ldr) =
      (ldr.name, ldr.range, (List.range 25).map (fun slot =>
        decide (10 ≤ slot ∧ slot ≤ 16) &&
          (if ldr.range.spansYears then true
           else decide (13 ≤ slot ∧ slot ≤ 15)))) := by
    intro ldr hldr
    have hcases : ldr = a ∨ ldr ∈ pre ++ post := by
      rcases List.mem_append.mp hldr with h | h
      · exact Or.inr (List.mem_append.mpr (Or.inl h))
      · rcases List.mem_cons.mp h with h | h
        · exact Or.inl h
        · exact Or.inr (List.mem_append.mpr (Or.inr h))
    refine congrArg (fun z => (ldr.name, ldr.range, z)) ?_
    unfold monthSlotMap
    apply List.map_congr_left
    intro slot _
    rw [hT slot]
    rcases hcases with rfl | hb
    · rw [if_neg hans]
      by_cases e1 : 13 ≤ slot ∧ slot ≤ 15
      · rw [if_neg (by omega : ¬ (10 ≤ slot ∧ slot ≤ 12)), if_pos e1,
          List.any_eq_true.mpr ⟨ldr, by simp, eqLDR_refl ldr⟩,
          decide_eq_true e1]
      · have hanyf : (pre ++ post).any (fun s => eqLDR ldr s) = false := by
          rw [List.any_eq_false]
          intro x hx
          rw [eqLDR_spans_mismatch ldr x hans (hB2 x hx).2.2]
          simp
        by_cases e2 : 10 ≤ slot ∧ slot ≤ 12
        · rw [if_pos e2, hanyf, decide_eq_false e1]
        · by_cases e3 : slot = 16
          · rw [if_neg e2, if_neg e1, if_pos e3, hanyf, decide_eq_false e1]
          · rw [if_neg e2, if_neg e1, if_neg e3,
              decide_eq_false (by omega : ¬ (10 ≤ slot ∧ slot ≤ 16))]
            simp
    · have hbs := (hB2 ldr hb).2.2
      rw [if_pos hbs]
      by_cases f1 : 10 ≤ slot ∧ slot ≤ 16
      · by_cases f2 : 10 ≤ slot ∧ slot ≤ 12
        · rw [if_pos f2, List.any_eq_true.mpr ⟨ldr, hb, eqLDR_refl ldr⟩]
        · by_cases f3 : 13 ≤ slot ∧ slot ≤ 15
          · rw [if_neg f2, if_pos f3,
              List.any_eq_true.mpr
                ⟨ldr, List.mem_append.mpr (Or.inl hb), eqLDR_refl ldr⟩]
          · rw [if_neg f2, if_neg f3, if_pos (by omega : slot = 16),
              List.any_eq_true.mpr ⟨ldr, hb, eqLDR_refl ldr⟩]
      · rw [decide_eq_false f1]
        simp
  rw [getHistoryDateMapping_unfold _ hlen0 hvalid, hocc, hruns,
    if_neg (by norm_num)]
  exact congrArg Except.ok (List.map_congr_left hpoint)

/-- Witness for the amended C4 on the concrete pair of a Jan-Mar 2021 entity
and an Oct 2020 - Apr 2021 entity. -/
theorem claim_c4_witness :
    getHistoryDateMapping
        [⟨"x", ⟨⟨2021, 1, 1⟩, ⟨2021, 3, 31⟩⟩⟩,
         ⟨"y", ⟨⟨2020, 10, 1⟩, ⟨2021, 4, 30⟩⟩⟩] =
      .ok ([(⟨"x", ⟨⟨2021, 1, 1⟩, ⟨2021, 3, 31⟩⟩⟩ : LDR),
            ⟨"y", ⟨⟨2020, 10, 1⟩, ⟨2021, 4, 30⟩⟩⟩].map (fun ldr =>
        (ldr.name, ldr.range, (List.range 25).map (fun slot =>
          decide (10 ≤ slot ∧ slot ≤ 16) &&
            (if ldr.range.spansYears then true
             else decide (13 ≤ slot ∧ slot ≤ 15)))))) :=
  claim_c4_amended [] [⟨"y", ⟨⟨2020, 10, 1⟩, ⟨2021, 4, 30⟩⟩⟩]
    ⟨"x", ⟨⟨2021, 1, 1⟩, ⟨2021, 3, 31⟩⟩⟩
    (by decide) (by decide) (by decide) (by decide) (by decide) (by decide)

/-- Witness for the amended C8 at stored ordinals `[2, 10]` with lower
bound 2. -/
theorem claim_c8_amended_witness :
    ([2, 10] : List Nat) ≠ [] ∧
      (∀ d ∈ ([2, 10] : List Nat), dateMinOrd ≤ d ∧ d ≤ dateMaxOrd) ∧
      (∃ out, datesQuery [2, 10] 2 none = some out ∧
        List.Sorted (· ≤ ·) out ∧
        ∀ d, d ∈ out ↔ (d ∈ ([2, 10] : List Nat) ∧ 2 ≤ d ∧
          (2 = dateMinOrd ∨ d ≤ 2 + 1))) :=
  ⟨by decide, by decide,
    claim_c8_amended [2, 10] 2 (by decide) (by decide)⟩

end Weather
